import Mathlib

/-!
Verification of the dependency-manifest resolution engine (manifest scanner,
manifest parser, URL candidate generation, fetcher) against its specification.

The JavaScript source is shallowly embedded:
- `JVal` models JavaScript values as produced by `JSON.parse` / `js-yaml` /
  the `vm` sandbox (numbers keep their source lexeme; float canonicalisation
  is never exercised by any claim).
- `jsonParse` is an executable model of `JSON.parse` (strict JSON grammar:
  escapes, control-character rejection, no leading zeros, no trailing input).
  JavaScript's reordering of integer-like object keys is not modelled; no
  claim exercises it.
- The two external evaluators used by `extractDependencies` are not part of
  this repository's code and are modelled as oracles passed explicitly:
  `vmEval` stands for the outcome of running the two `vm.runInContext`
  scripts over the manifest text (`some b` exactly when one of the scripts
  evaluates to a value whose `bender.depVersions` is truthy, and `b` models
  that `bender` object), and `yamlEval` stands for `js-yaml`'s `load`
  (`none` when it throws).  Concrete instantiations of these oracles in
  counterexamples are justified in the comments at their definitions.
- The four textual-fallback regular expressions are implemented directly
  over `List Char` with JavaScript `exec` / `matchAll` semantics, including
  the fact that patterns 3 and 4 lack the `g` flag, so the surrounding
  `while (pattern.exec(content))` loop never terminates once they match
  (`lastIndex` is never advanced for a non-global regex); that divergence is
  modelled by `Option`, with `none` meaning the function never returns.
-/

namespace DepFetch

/-- JavaScript values, as produced by `JSON.parse`, `yaml.load`, and the vm
sandbox.  `jnum` keeps the numeric lexeme verbatim. -/
inductive JVal where
  | jundefined
  | jnull
  | jbool (b : Bool)
  | jnum (lexeme : String)
  | jstr (s : String)
  | jarr (elems : List JVal)
  | jobj (fields : List (String × JVal))

/-- A numeric lexeme denotes zero iff every digit of its mantissa is 0
(signs, the decimal point and the exponent do not affect zeroness). -/
def numLexIsZero (l : List Char) : Bool :=
  (l.takeWhile (fun c => c ≠ 'e' ∧ c ≠ 'E')).all (fun c => ¬(c.isDigit ∧ c ≠ '0'))

/-- JavaScript truthiness of a value (`if (x)`). -/
def truthy : JVal → Bool
  | .jundefined => false
  | .jnull => false
  | .jbool b => b
  | .jnum l => ¬ numLexIsZero l.data
  | .jstr s => s ≠ ""
  | .jarr _ => true
  | .jobj _ => true

/-- Value of field `k` on a plain object entry list: JavaScript objects keep
one binding per key, the last assignment winning; a missing key reads as
`undefined`. -/
def objGet (fs : List (String × JVal)) (k : String) : JVal :=
  match (fs.filter (fun p => p.1 = k)).getLast? with
  | some p => p.2
  | none => .jundefined

/-- Keys of an object in first-occurrence order (duplicates collapsed). -/
def objKeys (fs : List (String × JVal)) : List String :=
  fs.foldl (fun acc p => if acc.contains p.1 then acc else acc ++ [p.1]) []

/-- `Object.entries` on an object entry list. -/
def objEntries (fs : List (String × JVal)) : List (String × JVal) :=
  (objKeys fs).map (fun k => (k, objGet fs k))

/-- Property access `v.f`.  On `null`/`undefined` it throws a `TypeError`
(modelled as `.error`); on objects it reads the field; on any other value
the properties accessed here do not exist and read as `undefined`. -/
def jsField : JVal → String → Except Unit JVal
  | .jnull, _ => .error ()
  | .jundefined, _ => .error ()
  | .jobj fs, k => .ok (objGet fs k)
  | _, _ => .ok .jundefined

/-- `Object.entries` of an arbitrary value: objects give their entries,
arrays and strings enumerate their indices, other primitives give nothing
(the callers only reach this under a truthiness guard, so the throwing
`null`/`undefined` cases are unreachable there). -/
def jsEntries : JVal → List (String × JVal)
  | .jobj fs => objEntries fs
  | .jarr xs => xs.enum.map (fun p => (toString p.1, p.2))
  | .jstr s => s.data.enum.map (fun p => (toString p.1, .jstr (String.singleton p.2)))
  | _ => []

/-! ### A model of `JSON.parse` -/

/-- JSON insignificant whitespace. -/
def jsonWsChar (c : Char) : Bool := c = ' ' ∨ c = '\t' ∨ c = '\n' ∨ c = '\r'

def jsonSkipWs (cs : List Char) : List Char := cs.dropWhile jsonWsChar

def hexDigitVal (c : Char) : Option Nat :=
  if '0' ≤ c ∧ c ≤ '9' then some (c.toNat - '0'.toNat)
  else if 'a' ≤ c ∧ c ≤ 'f' then some (c.toNat - 'a'.toNat + 10)
  else if 'A' ≤ c ∧ c ≤ 'F' then some (c.toNat - 'A'.toNat + 10)
  else none

/-- Body of a JSON string after the opening quote.  Escapes are decoded;
raw control characters are a parse error, as in `JSON.parse`.  A `\u`
escape denoting an invalid scalar value falls back to `Char.ofNat`'s
default; no claim exercises surrogate pairs. -/
def jsonStrBody : Nat → List Char → Option (List Char × List Char)
  | 0, _ => none
  | _ + 1, '"' :: rest => some ([], rest)
  | n + 1, '\\' :: e :: rest =>
    match e with
    | '"' => (jsonStrBody n rest).map (fun p => ('"' :: p.1, p.2))
    | '\\' => (jsonStrBody n rest).map (fun p => ('\\' :: p.1, p.2))
    | '/' => (jsonStrBody n rest).map (fun p => ('/' :: p.1, p.2))
    | 'b' => (jsonStrBody n rest).map (fun p => (Char.ofNat 8 :: p.1, p.2))
    | 'f' => (jsonStrBody n rest).map (fun p => (Char.ofNat 12 :: p.1, p.2))
    | 'n' => (jsonStrBody n rest).map (fun p => ('\n' :: p.1, p.2))
    | 'r' => (jsonStrBody n rest).map (fun p => ('\r' :: p.1, p.2))
    | 't' => (jsonStrBody n rest).map (fun p => ('\t' :: p.1, p.2))
    | 'u' =>
      match rest with
      | a :: b :: c :: d :: r2 =>
        match hexDigitVal a, hexDigitVal b, hexDigitVal c, hexDigitVal d with
        | some va, some vb, some vc, some vd =>
          (jsonStrBody n r2).map
            (fun p => (Char.ofNat (((va * 16 + vb) * 16 + vc) * 16 + vd) :: p.1, p.2))
        | _, _, _, _ => none
      | _ => none
    | _ => none
  | n + 1, c :: rest =>
    if c.toNat < 32 then none
    else (jsonStrBody n rest).map (fun p => (c :: p.1, p.2))
  | _, [] => none

/-- A JSON number starting at `cs`: returns its lexeme and the remainder.
Grammar: `-? (0 | [1-9][0-9]*) (. [0-9]+)? ([eE][+-]?[0-9]+)?`. -/
def jsonNum (cs : List Char) : Option (List Char × List Char) :=
  let (sign, cs1) := match cs with
    | '-' :: r => (['-'], r)
    | _ => (([] : List Char), cs)
  let intPart := cs1.takeWhile Char.isDigit
  let cs2 := cs1.drop intPart.length
  if intPart.isEmpty then none
  else if intPart.head? = some '0' ∧ intPart.length > 1 then none
  else
    let (frac, cs3) := match cs2 with
      | '.' :: r =>
        let ds := r.takeWhile Char.isDigit
        if ds.isEmpty then (([] : List Char), cs2)
        else ('.' :: ds, r.drop ds.length)
      | _ => (([] : List Char), cs2)
    if cs2 ≠ cs3 ∨ frac.isEmpty then
      let (ex, cs4) := match cs3 with
        | 'e' :: r =>
          (match r with
           | '+' :: r2 =>
             let ds := r2.takeWhile Char.isDigit
             if ds.isEmpty then (([] : List Char), cs3) else ('e' :: '+' :: ds, r2.drop ds.length)
           | '-' :: r2 =>
             let ds := r2.takeWhile Char.isDigit
             if ds.isEmpty then (([] : List Char), cs3) else ('e' :: '-' :: ds, r2.drop ds.length)
           | _ =>
             let ds := r.takeWhile Char.isDigit
             if ds.isEmpty then (([] : List Char), cs3) else ('e' :: ds, r.drop ds.length))
        | 'E' :: r =>
          (match r with
           | '+' :: r2 =>
             let ds := r2.takeWhile Char.isDigit
             if ds.isEmpty then (([] : List Char), cs3) else ('E' :: '+' :: ds, r2.drop ds.length)
           | '-' :: r2 =>
             let ds := r2.takeWhile Char.isDigit
             if ds.isEmpty then (([] : List Char), cs3) else ('E' :: '-' :: ds, r2.drop ds.length)
           | _ =>
             let ds := r.takeWhile Char.isDigit
             if ds.isEmpty then (([] : List Char), cs3) else ('E' :: ds, r.drop ds.length))
        | _ => (([] : List Char), cs3)
      some (sign ++ intPart ++ frac ++ ex, cs4)
    else none

mutual

/-- One JSON value (fuelled; the wrapper supplies ample fuel). -/
def jsonVal : Nat → List Char → Option (JVal × List Char)
  | 0, _ => none
  | n + 1, cs =>
    match jsonSkipWs cs with
    | 'n' :: 'u' :: 'l' :: 'l' :: r => some (.jnull, r)
    | 't' :: 'r' :: 'u' :: 'e' :: r => some (.jbool true, r)
    | 'f' :: 'a' :: 'l' :: 's' :: 'e' :: r => some (.jbool false, r)
    | '"' :: r =>
      (jsonStrBody (r.length + 1) r).map (fun p => (.jstr (String.mk p.1), p.2))
    | '[' :: r =>
      (match jsonSkipWs r with
       | ']' :: r2 => some (.jarr [], r2)
       | r2 => (jsonArrItems n r2).map (fun p => (.jarr p.1, p.2)))
    | '{' :: r =>
      (match jsonSkipWs r with
       | '}' :: r2 => some (.jobj [], r2)
       | r2 => (jsonObjItems n r2).map (fun p => (.jobj p.1, p.2)))
    | c :: r =>
      if c = '-' ∨ c.isDigit then
        (jsonNum (c :: r)).map (fun p => (.jnum (String.mk p.1), p.2))
      else none
    | [] => none

/-- One-or-more comma-separated array elements, up to the closing bracket. -/
def jsonArrItems : Nat → List Char → Option (List JVal × List Char)
  | 0, _ => none
  | n + 1, cs =>
    match jsonVal n cs with
    | none => none
    | some (v, r) =>
      match jsonSkipWs r with
      | ',' :: r2 => (jsonArrItems n r2).map (fun p => (v :: p.1, p.2))
      | ']' :: r2 => some ([v], r2)
      | _ => none

/-- One-or-more comma-separated object members, up to the closing brace. -/
def jsonObjItems : Nat → List Char → Option (List (String × JVal) × List Char)
  | 0, _ => none
  | n + 1, cs =>
    match jsonSkipWs cs with
    | '"' :: r =>
      match jsonStrBody (r.length + 1) r with
      | none => none
      | some (k, r1) =>
        match jsonSkipWs r1 with
        | ':' :: r2 =>
          match jsonVal n r2 with
          | none => none
          | some (v, r3) =>
            match jsonSkipWs r3 with
            | ',' :: r4 => (jsonObjItems n r4).map (fun p => ((String.mk k, v) :: p.1, p.2))
            | '}' :: r4 => some ([(String.mk k, v)], r4)
            | _ => none
        | _ => none
    | _ => none

end

/-- `JSON.parse`: one value, optionally surrounded by whitespace, nothing
after it; `none` models a thrown `SyntaxError`. -/
def jsonParse (s : String) : Option JVal :=
  match jsonVal (s.data.length * 4 + 16) s.data with
  | some (v, rest) => if jsonSkipWs rest = [] then some v else none
  | none => none

/-! ### Dependency records and the four parsing strategies -/

/-- A dependency record as pushed by `extractDependencies`.  `version` is
the raw JavaScript value taken from the manifest's map.  `pathPref` and
`baseUrl` model the source's `pathPrefix` and `baseUrl` fields (absent =
JavaScript `undefined` = `none`); `source` is the source's strategy tag,
one of "bender", "package.json", "yaml", "regex". -/
structure Dep where
  name : String
  version : JVal
  pathPref : Option String
  baseUrl : Option String
  source : String

/-- JavaScript truthiness of an optional string (`undefined` and the empty
string are falsy). -/
def truthyS : Option String → Bool
  | some s => s ≠ ""
  | none => false

/-- JavaScript `a || b` on optional strings. -/
def orJs (a b : Option String) : Option String := if truthyS a then a else b

/-- The `bender` object found by the vm scripts (only consulted when
`result?.bender?.depVersions` is truthy, i.e. when the `vmEval` oracle
returns `some`).  `depVersions` and `depPathPrefixes` model plain objects,
so their keys are unique in any real outcome; `staticDomainPref` models the
source's `staticDomainPrefix` field. -/
structure Bender where
  depVersions : List (String × JVal)
  depPathPrefixes : List (String × String)
  staticDomain : Option String
  staticDomainPref : Option String

def lookupStr (m : List (String × String)) (k : String) : Option String :=
  ((m.filter (fun p => p.1 = k)).getLast?).map (fun p => p.2)

/-- Records pushed by strategy 1 for a found bender object:
one per `Object.entries(bender.depVersions)` entry, with
`pathPrefix: bender.depPathPrefixes?.[name]` and
`baseUrl: bender.staticDomain || bender.staticDomainPrefix`. -/
def benderRecords (b : Bender) : List Dep :=
  (objEntries b.depVersions).map (fun p =>
    ⟨p.1, p.2, lookupStr b.depPathPrefixes p.1,
      orJs b.staticDomain b.staticDomainPref, "bender"⟩)

/-- Records from a `dependencies` value under a structured strategy. -/
def depRecordsFrom (d : JVal) (src : String) : List Dep :=
  (jsEntries d).map (fun p => ⟨p.1, p.2, none, none, src⟩)

/-- Strategy 2 (`JSON.parse`): `none` models a throw (either `JSON.parse`
itself or the `data.dependencies` access on `null`), after which the next
strategy runs; `some recs` models the unconditional `return dependencies`
that follows a successful parse — even when `recs` is empty. -/
def strategy2 (content : String) : Option (List Dep) :=
  match jsonParse content with
  | none => none
  | some v =>
    match jsField v "dependencies" with
    | .error _ => none
    | .ok d => some (if truthy d then depRecordsFrom d "package.json" else [])

/-- JavaScript `\s` (the ASCII part; no claim exercises Unicode spaces). -/
def isSpaceJS (c : Char) : Bool :=
  c = ' ' ∨ c = '\t' ∨ c = '\n' ∨ c = '\r' ∨ c = Char.ofNat 11 ∨ c = Char.ofNat 12

/-- `String.prototype.trim` over the character list (the ASCII whitespace
cases; no claim exercises Unicode whitespace). -/
def trimL (cs : List Char) : List Char :=
  ((cs.dropWhile isSpaceJS).reverse.dropWhile isSpaceJS).reverse

/-- The YAML-likeness guard `/^---|:/.test(content.trim())`: the trimmed
content starts with `---` or contains a colon anywhere. -/
def yamlLike (content : String) : Bool :=
  let t := trimL content.data
  (t.take 3 = ['-', '-', '-']) ∨ t.contains ':'

/-- Strategy 3 (`js-yaml`): only consulted on YAML-like content; `yamlEval`
is the oracle for `yaml.load` (`none` = throw).  Mirrors strategy 2's
unconditional return after a successful load. -/
def strategy3 (content : String) (yamlEval : String → Option JVal) : Option (List Dep) :=
  if yamlLike content then
    match yamlEval content with
    | none => none
    | some v =>
      match jsField v "dependencies" with
      | .error _ => none
      | .ok d => some (if truthy d then depRecordsFrom d "yaml" else [])
  else none

/-! ### Strategy 4: the textual regex fallback

The source iterates four regex patterns with `while ((match =
pattern.exec(content)) !== null)`.  Patterns 1 and 2 carry the `g` flag, so
`exec` walks successive matches; patterns 3 and 4 do not, so a successful
`exec` never advances `lastIndex` and the `while` loop repeats the same
match forever — the function never returns once pattern 3 or 4 matches.
For each outer match the source takes `depContent = match[1] || match[0]`
and pushes one record per match of the inner pair regex
`/(['"]?)(\w[\w-@\/]+)\1\s*:\s*['"]([^'"]+)['"]/g` inside `depContent`. -/

/-- JavaScript `\w` = `[A-Za-z0-9_]`. -/
def isWordChar (c : Char) : Bool := c.isAlphanum ∨ c = '_'

/-- The inner pair regex's name class `[\w-@\/]` (the dash is literal). -/
def isNameChar (c : Char) : Bool := isWordChar c ∨ c = '-' ∨ c = '@' ∨ c = '/'

def isQuoteC (c : Char) : Bool := c = '"' ∨ c = Char.ofNat 39

/-- Match a literal at the head of the input, returning the remainder. -/
def dropLit : List Char → List Char → Option (List Char)
  | [], cs => some cs
  | _ :: _, [] => none
  | l :: ls, c :: cs => if c = l then dropLit ls cs else none

/-- An outer match of pattern 1 or 2: the whole match and capture 1
(captures beyond 1 are never read by the source). -/
structure RxMatch where
  m0 : List Char
  g1 : List Char

/-- Pattern 1 `/['"]([^'"]+)['"]\s*:\s*['"]([^'"]+)['"]/g` tried at the
head of `cs`; both quote positions accept either quote character.  All
quantifiers here are deterministic: `[^'"]+` stops at the next quote and
`\s*` stops at the next non-space. -/
def p1At (cs : List Char) : Option (RxMatch × List Char) :=
  match cs with
  | c1 :: r1 =>
    if isQuoteC c1 then
      let g1 := r1.takeWhile (fun c => !isQuoteC c)
      let r2 := r1.drop g1.length
      if g1.isEmpty then none
      else
        match r2 with
        | _ :: r3 =>
          match (r3.dropWhile isSpaceJS) with
          | ':' :: r5 =>
            match r5.dropWhile isSpaceJS with
            | c3 :: r7 =>
              if isQuoteC c3 then
                let g2 := r7.takeWhile (fun c => !isQuoteC c)
                if g2.isEmpty then none
                else
                  match r7.drop g2.length with
                  | _ :: r9 => some (⟨cs.take (cs.length - r9.length), g1⟩, r9)
                  | [] => none
              else none
            | [] => none
          | _ => none
        | [] => none
    else none
  | [] => none

/-- Successive non-overlapping matches of a head matcher, scanning left to
right (`exec` with the `g` flag); fuelled by the input length. -/
def scanRx (tryAt : List Char → Option (RxMatch × List Char)) :
    Nat → List Char → List RxMatch
  | 0, _ => []
  | _ + 1, [] => []
  | n + 1, c :: tl =>
    match tryAt (c :: tl) with
    | some (m, rest) => m :: scanRx tryAt n rest
    | none => scanRx tryAt n tl

/-- Pattern 2 `(\w+)Version\s*:\s*['"]([^'"]+)['"]` with capture length `k`
for the greedy `(\w+)`; backtracks from the longest capture down. -/
def p2Try (cs : List Char) (w : List Char) : Nat → Option (RxMatch × List Char)
  | 0 => none
  | k + 1 =>
    match dropLit ['V', 'e', 'r', 's', 'i', 'o', 'n'] (cs.drop (k + 1)) with
    | some r1 =>
      (match r1.dropWhile isSpaceJS with
       | ':' :: r2 =>
         (match r2.dropWhile isSpaceJS with
          | c3 :: r3 =>
            if isQuoteC c3 then
              let g2 := r3.takeWhile (fun c => !isQuoteC c)
              if g2.isEmpty then p2Try cs w k
              else
                match r3.drop g2.length with
                | _ :: r4 => some (⟨cs.take (cs.length - r4.length), w.take (k + 1)⟩, r4)
                | [] => p2Try cs w k
            else p2Try cs w k
          | [] => p2Try cs w k)
       | _ => p2Try cs w k)
    | none => p2Try cs w k

/-- Pattern 2 tried at the head of `cs`: the capture `(\w+)` is a nonempty
prefix of the maximal word-character run (`w.take k` equals `cs.take k`
there, since `w` is a prefix of `cs`). -/
def p2At (cs : List Char) : Option (RxMatch × List Char) :=
  let w := cs.takeWhile isWordChar
  if w.isEmpty then none else p2Try cs w w.length

/-- Patterns 3/4 `(?:dependencies|depVersions)\s*X\s*\{([^}]+)\}` (with `X`
the separator `:` or `=`) tried at the head of `cs`.  Only matching
matters: a match makes the enclosing `while` loop diverge. -/
def pBlockAt (sep : Char) (cs : List Char) : Bool :=
  match (dropLit "dependencies".data cs).orElse (fun _ => dropLit "depVersions".data cs) with
  | none => false
  | some r1 =>
    match r1.dropWhile isSpaceJS with
    | c :: r2 =>
      if c = sep then
        match r2.dropWhile isSpaceJS with
        | '{' :: r3 =>
          let inner := r3.takeWhile (fun c => c ≠ '}')
          ¬ inner.isEmpty ∧ ¬ (r3.drop inner.length).isEmpty
        | _ => false
      else false
    | [] => false

/-- Does pattern 3/4 match anywhere in the input? (fuelled scan). -/
def pBlockScan (sep : Char) : Nat → List Char → Bool
  | 0, _ => false
  | _ + 1, [] => false
  | n + 1, c :: tl => pBlockAt sep (c :: tl) ∨ pBlockScan sep n tl

/-- The inner pair regex's name `(\w[\w-@\/]+)`: a word character followed
by one or more name-class characters (at least two characters total). -/
def parseName : List Char → Option (List Char × List Char)
  | c :: r =>
    if isWordChar c then
      let run := r.takeWhile isNameChar
      if run.isEmpty then none else some (c :: run, r.drop run.length)
    else none
  | [] => none

/-- The inner pair regex's `\s*:\s*`. -/
def parseSepColon (cs : List Char) : Option (List Char) :=
  match cs.dropWhile isSpaceJS with
  | ':' :: r => some (r.dropWhile isSpaceJS)
  | _ => none

/-- The inner pair regex's `['"]([^'"]+)['"]`: a quoted nonempty body (the
closing quote may be either quote character). -/
def parseQuotedBody : List Char → Option (List Char × List Char)
  | c :: r =>
    if isQuoteC c then
      let b := r.takeWhile (fun x => !isQuoteC x)
      if b.isEmpty then none
      else
        match r.drop b.length with
        | _ :: r2 => some (b, r2)
        | [] => none
    else none
  | [] => none

/-- The inner pair regex tried at the head: with a quote present, the
backreference `\1` must repeat that same quote after the name; without one
`\1` is empty (when the quoted attempt fails, the unquoted one would need a
word character where the quote stands, so it fails too, as in the source's
backtracking). -/
def innerAt (cs : List Char) : Option (List Char × List Char × List Char) :=
  match cs with
  | c :: rest =>
    if isQuoteC c then
      match parseName rest with
      | some (nm, r1) =>
        match r1 with
        | c2 :: r2 =>
          if c2 = c then
            match parseSepColon r2 with
            | some r3 => (parseQuotedBody r3).map (fun p => (nm, p.1, p.2))
            | none => none
          else none
        | [] => none
      | none => none
    else
      match parseName cs with
      | some (nm, r1) =>
        match parseSepColon r1 with
        | some r2 => (parseQuotedBody r2).map (fun p => (nm, p.1, p.2))
        | none => none
      | none => none
  | [] => none

/-- `matchAll` over the inner pair regex (fuelled scan). -/
def scanInner : Nat → List Char → List (List Char × List Char)
  | 0, _ => []
  | _ + 1, [] => []
  | n + 1, c :: tl =>
    match innerAt (c :: tl) with
    | some (nm, b, rest) => (nm, b) :: scanInner n rest
    | none => scanInner n tl

/-- Records pushed for one `depContent` (one per inner pair match). -/
def innerRecords (cs : List Char) : List Dep :=
  (scanInner (cs.length + 1) cs).map
    (fun p => ⟨String.mk p.1, .jstr (String.mk p.2), none, none, "regex"⟩)

/-- `depContent = match[1] || match[0]` (capture 1 wins when nonempty). -/
def depContent (m : RxMatch) : List Char := if m.g1.isEmpty then m.m0 else m.g1

/-- Strategy 4: patterns 1 and 2 contribute their inner-match records; if
pattern 3 or 4 matches anywhere, the non-global `exec` loop never
terminates, so the function never returns (`none`). -/
def strategy4 (content : String) : Option (List Dep) :=
  let cs := content.data
  if pBlockScan ':' (cs.length + 1) cs ∨ pBlockScan '=' (cs.length + 1) cs then none
  else
    some ((scanRx p1At (cs.length + 1) cs).flatMap (fun m => innerRecords (depContent m)) ++
          (scanRx p2At (cs.length + 1) cs).flatMap (fun m => innerRecords (depContent m)))

/-! ### The strategy pipeline -/

/-- Which strategies a run of `extractDependencies` attempts. -/
inductive Strat where
  | embedded
  | structJson
  | structYaml
  | textualRegex
deriving DecidableEq, Repr

/-- `extractDependencies`, instrumented with the list of attempted
strategies.  The result is `none` when the run never returns (strategy 4's
divergence).  Each strategy returns as soon as it succeeds structurally —
strategy 1 when a truthy `bender.depVersions` is found, strategies 2 and 3
when parsing succeeds and the `dependencies` access does not throw — even
when it contributes zero records. -/
def extractDependenciesT (content : String)
    (vmEval : String → Option Bender) (yamlEval : String → Option JVal) :
    Option (List Dep) × List Strat :=
  match vmEval content with
  | some b => (some (benderRecords b), [.embedded])
  | none =>
    match strategy2 content with
    | some recs => (some recs, [.embedded, .structJson])
    | none =>
      match strategy3 content yamlEval with
      | some recs => (some recs, [.embedded, .structJson, .structYaml])
      | none =>
        (strategy4 content, [.embedded, .structJson, .structYaml, .textualRegex])

/-- The value returned by `extractDependencies` (`none` = never returns). -/
def extractDependencies (content : String)
    (vmEval : String → Option Bender) (yamlEval : String → Option JVal) :
    Option (List Dep) :=
  (extractDependenciesT content vmEval yamlEval).1

/-- Modelled from the spec's words, for comparison with the code: the parse
pipeline the specification describes, which "returns immediately on the
first strategy that yields one or more records" and treats "a strategy that
throws or matches nothing" as unsuccessful, trying the next; when every
strategy is unsuccessful the parse yields the empty record list.  The four
strategies themselves are the code's. -/
def specParse (content : String)
    (vmEval : String → Option Bender) (yamlEval : String → Option JVal) :
    Option (List Dep) :=
  match (match vmEval content with
         | some b => benderRecords b
         | none => []) with
  | r :: rs => some (r :: rs)
  | [] =>
    match (strategy2 content).getD [] with
    | r :: rs => some (r :: rs)
    | [] =>
      match (strategy3 content yamlEval).getD [] with
      | r :: rs => some (r :: rs)
      | [] =>
        match strategy4 content with
        | some r4 => some r4
        | none => none

/-! ### Output filenames -/

def commaJoin : List String → String
  | [] => ""
  | [x] => x
  | x :: xs => x ++ "," ++ commaJoin xs

mutual

/-- Array-nesting depth of a value, used to fuel `jvalToStringF`. -/
def jfuel : JVal → Nat
  | .jarr xs => 1 + jfuelList xs
  | _ => 1

def jfuelList : List JVal → Nat
  | [] => 0
  | v :: vs => max (jfuel v) (jfuelList vs)

end

/-- Fuelled form of JavaScript string coercion (the fuel only bounds the
nesting of arrays; the wrapper supplies more than any value's depth, so
the 0-fuel arm is never reached). -/
def jvalToStringF (fuel : Nat) : JVal → String := fun v =>
  match v with
  | .jundefined => "undefined"
  | .jnull => "null"
  | .jbool true => "true"
  | .jbool false => "false"
  | .jnum l => l
  | .jstr s => s
  | .jobj _ => "[object Object]"
  | .jarr xs =>
    match fuel with
    | 0 => ""
    | n + 1 =>
      commaJoin (xs.map (fun w =>
        match w with
        | .jnull => ""
        | .jundefined => ""
        | u => jvalToStringF n u))

/-- JavaScript string coercion of a value, as used by the template literal
building the output filename.  Numeric lexemes are kept verbatim (float
canonicalisation is not modelled; no claim exercises numeric versions);
arrays join their elements with a comma, `null`/`undefined` elements
rendered empty, as `Array.prototype.toString` does. -/
def jvalToString (v : JVal) : String := jvalToStringF (jfuel v) v

/-- `dep.name.replace(/\//g, "_")`. -/
def sanitize (n : String) : String :=
  String.mk (n.data.map (fun c => if c = '/' then '_' else c))

/-- The output filename of one dependency record. -/
def depFilename (d : Dep) : String :=
  sanitize d.name ++ "@" ++ jvalToString d.version ++ ".js"

/-- The full output path: the orchestrator joins the root, the fixed
`external-dependencies` directory, and the per-record filename. -/
def outputPath (root : String) (d : Dep) : String :=
  root ++ "/external-dependencies/" ++ depFilename d

/-! ### URL candidate generation and the per-dependency fetch loop -/

/-- `dep.baseUrl || "https://cdn.example.com"`. -/
def cdnBase (d : Dep) : String :=
  match d.baseUrl with
  | some s => if s = "" then "https://cdn.example.com" else s
  | none => "https://cdn.example.com"

/-- `dep.pathPrefix || dep.name`. -/
def ppOrName (d : Dep) : String :=
  match d.pathPref with
  | some s => if s = "" then d.name else s
  | none => d.name

/-- The `urls` array tried by the non-bender path of `downloadDependency`:
the three generic CDN patterns, then for each suffix variant the three
public CDN hosts (the order the source's array spreads produce). -/
def allUrls (d : Dep) : List String :=
  let ver := jvalToString d.version
  let nv := d.name ++ "@" ++ ver
  let pub := ["https://unpkg.com/" ++ nv, "https://cdn.jsdelivr.net/npm/" ++ nv,
              "https://bundle.run/" ++ nv]
  [cdnBase d ++ "/" ++ nv ++ "/dist/" ++ d.name ++ ".js",
   cdnBase d ++ "/" ++ nv ++ "/" ++ d.name ++ ".js",
   cdnBase d ++ "/" ++ ppOrName d ++ "/" ++ d.name ++ ".js"] ++
  pub.map (fun u => u ++ "/dist/" ++ d.name ++ ".min.js") ++
  pub.map (fun u => u ++ "/dist/" ++ d.name ++ ".js") ++
  pub.map (fun u => u ++ "/" ++ d.name ++ ".js") ++
  pub.map (fun u => u ++ "/bundle.js")

/-- The `for (const url of urls) if (await tryDownload(url, ...)) return
true` loop: result, plus the URLs attempted in order (up to and including
the first success). -/
def tryLoop : List String → (String → Bool) → Bool × List String
  | [], _ => (false, [])
  | u :: rest, t =>
    if t u then (true, [u])
    else
      let r := tryLoop rest t
      (r.1, u :: r.2)

/-- The vendor-pattern URL for a bender record. -/
def vendorUrl (d : Dep) (b p : String) : String :=
  b ++ p ++ "/bundles/" ++ d.name ++ ".js"

/-- `downloadDependency`, abstracted over the per-URL outcome of
`tryDownload` and instrumented with the attempted URLs.  When the record
came from the bender strategy and both `baseUrl` and `pathPrefix` are
truthy, the result of trying the single vendor-pattern URL is returned
directly; otherwise the fifteen-URL list is tried in order, exhaustion
throwing the "No valid download URL found" error. -/
def downloadDependencyT (d : Dep) (t : String → Bool) : Except String Bool × List String :=
  if d.source = "bender" ∧ truthyS d.baseUrl ∧ truthyS d.pathPref then
    let u := vendorUrl d (d.baseUrl.getD "") (d.pathPref.getD "")
    (Except.ok (t u), [u])
  else
    let r := tryLoop (allUrls d) t
    if r.1 then (Except.ok true, r.2)
    else (Except.error "No valid download URL found", r.2)

/-! ### `tryDownload`: one candidate attempt over the network

One attempt is driven by the chain of responses the network produces: the
first response answers the request for the candidate URL, and each
redirect's follow-up request consumes the next response.  The file state is
the content of the candidate's output path (`none` = no file).  A `none`
result means the model ran out of trace — the attempt is still running. -/

/-- One network response. `redirect` carries a `Location` header (redirect
statuses without one fall under `status`); `status` is a terminal non-200
response (200s are `body`); `body` is a 200 whose body was streamed to the
file in full; `timeoutMid` is the 5-second inactivity timeout firing after
`w` was already streamed to the file (the source's `req.setTimeout`
handler destroys the request and resolves `false` without unlinking);
`netErr` is a request error before anything was written. -/
inductive Resp where
  | redirect (code : Nat) (loc : String)
  | status (code : Nat)
  | body (content : String)
  | timeoutMid (w : String)
  | netErr

/-- Is `w` a prefix of `cs`? -/
def litPrefixOf : List Char → List Char → Bool
  | [], _ => true
  | _ :: _, [] => false
  | l :: ls, c :: cs => c = l ∧ litPrefixOf ls cs

/-- Does `w` occur contiguously anywhere in `cs`? -/
def containsSub : List Char → List Char → Bool
  | [], w => w.isEmpty
  | c :: tl, w => litPrefixOf w (c :: tl) ∨ containsSub tl w

/-- The content heuristic applied to the written file:
`/(function|var|const|let|=>|class)/` over the file's text (the
`readFileSync(path, "utf8", 0, 100)` call ignores its extra arguments and
reads the whole file). -/
def jsHeuristic (b : String) : Bool :=
  ["function", "var", "const", "let", "=>", "class"].any
    (fun w => containsSub b.data w.data)

/-- `tryDownload`: follows every redirect with no bound, consuming the
response chain; on non-200 resolves `false`; on 200 writes the body, then
keeps the file and resolves `true` if the heuristic passes, else unlinks it
and resolves `false`. -/
def tryDownload : List Resp → Option String → Option (Bool × Option String)
  | [], _ => none
  | .redirect code _ :: rest, st =>
    if code = 301 ∨ code = 302 ∨ code = 307 ∨ code = 308 then tryDownload rest st
    else some (false, st)
  | .status _ :: _, st => some (false, st)
  | .body b :: _, _ =>
    if jsHeuristic b then some (true, some b) else some (false, none)
  | .timeoutMid w :: _, _ => some (false, some w)
  | .netErr :: _, st => some (false, st)

/-! ### The manifest scanner's classification -/

/-- The stems of `DEPENDENCY_PATTERNS` (each regex is a literal with an
optional trailing `s`, so `test` is case-insensitive containment of the
stem). -/
def wordPats : List String :=
  ["dependencie", "bender", "manifest", "module", "component", "package",
   "vendor", "lib", "external", "include", "require", "import"]

/-- The extra generic keywords of the content check,
`/(dependencies|depVersions|require|import)/i`. -/
def genericWords : List String :=
  ["dependencies", "depVersions", "require", "import"]

/-- Case-insensitive containment (JavaScript `test` with the `i` flag). -/
def containsCI (cs : List Char) (w : List Char) : Bool :=
  containsSub (cs.map Char.toLower) (w.map Char.toLower)

/-- Filename check: any manifest-name pattern matches the entry name. -/
def filenameMatches (name : String) : Bool :=
  wordPats.any (fun w => containsCI name.data w.data)

/-- Content check.  The source's `fs.readFileSync(fullPath, "utf8", 0,
1024)` passes extra arguments that `readFileSync` ignores, so the check
runs over the file's whole content, not its first kilobyte. -/
def contentMatches (content : String) : Bool :=
  wordPats.any (fun w => containsCI content.data w.data) ||
  genericWords.any (fun w => containsCI content.data w.data)

/-- Classification of one regular file: a candidate if either check
matches, with `type` recording `"filename"` when the filename matched and
`"content"` otherwise. -/
def classify (name content : String) : Option String :=
  let fm := filenameMatches name
  let cm := contentMatches content
  if fm || cm then some (if fm then "filename" else "content") else none

/-! ### Concrete inputs and oracle instantiations used by the claims -/

/-- A manifest that is valid JSON without a `dependencies` field, whose
text contains a `dependencies = \x7b...\x7d` block inside a string value,
so the textual fallback's pattern 4 matches it. -/
def contentC1 : String := "\x7b\"x\": \"dependencies = \x7bv: 1\x7d\"\x7d"

/-- A manifest that is valid JSON whose `dependencies` map has one entry
with an empty key and an empty value. -/
def contentC5 : String := "\x7b\"dependencies\": \x7b\"\": \"\"\x7d\x7d"

/-- vm oracle for the JSON manifests above: wrapping either content in the
source's two scripts yields a `SyntaxError` (inside a block statement a
string literal followed by a colon is not a valid label), so neither
script evaluates and no bender object is produced. -/
def vmNone : String → Option Bender := fun _ => none

/-- yaml oracle used on runs where strategy 3 is never reached (the
pipeline returns at strategy 2 before consulting it). -/
def yamlNone : String → Option JVal := fun _ => none

/-- yaml oracle for `contentC1`: the content is valid JSON, which is valid
YAML, so `yaml.load` returns the same structure `JSON.parse` does. -/
def yamlC1 : String → Option JVal :=
  fun s =>
    if s = contentC1 then some (.jobj [("x", .jstr "dependencies = \x7bv: 1\x7d")]) else none

/-- A bender-strategy record with truthy `baseUrl` and `pathPrefix`. -/
def depC2 : Dep := ⟨"a", .jstr "1", some "/p", some "https://h", "bender"⟩

/-- A network on which the first generic-pattern candidate of `depC2`
validates and every other URL fails. -/
def tryC2 : String → Bool := fun u => u = "https://h/a@1/dist/a.js"

/-- A structured-json record (not in the bender-direct case). -/
def depC2n : Dep := ⟨"a", .jstr "1", none, none, "package.json"⟩

/-- A network on which only the sixth candidate of `depC2n` validates. -/
def tryC2n : String → Bool := fun u => u = "https://bundle.run/a@1/dist/a.min.js"

/-- The record `extractDependencies` produces for `contentC5`. -/
def emptyRec : Dep := ⟨"", .jstr "", none, none, "package.json"⟩

/-- Did this response not interrupt an already-streaming body? -/
def noMidBody : Resp → Bool
  | .timeoutMid _ => false
  | _ => true

/-- Two distinct records whose sanitized names collide. -/
def depC9a : Dep := ⟨"a/b", .jstr "1", none, none, "regex"⟩

def depC9b : Dep := ⟨"a_b", .jstr "1", none, none, "bender"⟩

/-- Two records with equal versions and distinct names. -/
def depC9c : Dep := ⟨"a", .jstr "1", none, none, "yaml"⟩

def depC9d : Dep := ⟨"b", .jstr "1", none, none, "yaml"⟩

/-! ### Structural lemmas: the textual fallback never returns a record

`depContent` is `match[1]`, which for pattern 1 is the quote-free capture
`[^'"]+` and for pattern 2 the word-character capture `\w+`; the inner pair
regex requires a quoted version, so it can never match inside either
capture.  Hence whenever strategy 4 terminates it returns the empty list. -/

lemma word_not_quote {c : Char} (h : isWordChar c = true) : isQuoteC c = false := by
  rcases eq_or_ne c '"' with rfl | h1
  · exact absurd h (by decide)
  rcases eq_or_ne c (Char.ofNat 39) with rfl | h2
  · exact absurd h (by decide)
  · simp [isQuoteC, h1, h2]

lemma parseName_subset {cs nm r : List Char} (h : parseName cs = some (nm, r)) : r ⊆ cs := by
  match cs with
  | [] => simp [parseName] at h
  | c :: rest =>
    by_cases hw : isWordChar c = true
    · by_cases he : (rest.takeWhile isNameChar).isEmpty = true
      · simp [parseName, hw, he] at h
      · simp only [parseName, hw, he, if_true, Bool.false_eq_true, if_false,
          Option.some.injEq, Prod.mk.injEq] at h
        obtain ⟨h1, rfl⟩ := h
        exact fun x hx => List.mem_cons_of_mem _ (List.drop_subset _ _ hx)
    · simp [parseName, hw] at h

lemma parseSepColon_subset {cs r : List Char} (h : parseSepColon cs = some r) : r ⊆ cs := by
  unfold parseSepColon at h
  split at h
  · rename_i r0 heq
    have h1 : r = r0.dropWhile isSpaceJS := (Option.some.inj h).symm
    subst h1
    intro x hx
    have hx1 : x ∈ r0 := (List.dropWhile_suffix _).subset hx
    have hx2 : x ∈ ':' :: r0 := List.mem_cons_of_mem _ hx1
    rw [← heq] at hx2
    exact (List.dropWhile_suffix _).subset hx2
  · exact absurd h (by simp)

lemma parseQuotedBody_quote {cs : List Char} {p : List Char × List Char}
    (h : parseQuotedBody cs = some p) : ∃ c ∈ cs, isQuoteC c = true := by
  match cs with
  | [] => simp [parseQuotedBody] at h
  | c :: r =>
    by_cases hq : isQuoteC c = true
    · exact ⟨c, by simp, hq⟩
    · simp [parseQuotedBody, hq] at h

lemma innerAt_none {cs : List Char} (h : ∀ c ∈ cs, isQuoteC c = false) :
    innerAt cs = none := by
  match cs with
  | [] => rfl
  | c :: rest =>
    have hq : isQuoteC c = false := h c (by simp)
    simp only [innerAt, hq, Bool.false_eq_true, if_false]
    cases hn : parseName (c :: rest) with
    | none => rfl
    | some pr =>
      obtain ⟨nm, r1⟩ := pr
      cases hs : parseSepColon r1 with
      | none => simp [hs]
      | some r2 =>
        cases hb : parseQuotedBody r2 with
        | none => simp [hs, hb]
        | some p =>
          exfalso
          obtain ⟨q, hq1, hq2⟩ := parseQuotedBody_quote hb
          have hmem : q ∈ c :: rest := parseName_subset hn (parseSepColon_subset hs hq1)
          exact absurd (h q hmem) (by simp [hq2])

lemma scanInner_nil (fuel : Nat) :
    ∀ cs : List Char, (∀ c ∈ cs, isQuoteC c = false) → scanInner fuel cs = [] := by
  induction fuel with
  | zero => intro cs _; rfl
  | succ n ih =>
    intro cs h
    match cs with
    | [] => rfl
    | c :: tl =>
      simp only [scanInner, innerAt_none h]
      exact ih tl (fun x hx => h x (List.mem_cons_of_mem _ hx))

lemma innerRecords_nil {cs : List Char} (h : ∀ c ∈ cs, isQuoteC c = false) :
    innerRecords cs = [] := by
  unfold innerRecords
  rw [scanInner_nil _ _ h]
  rfl

lemma p1At_g1 {cs : List Char} {m : RxMatch} {rest : List Char}
    (h : p1At cs = some (m, rest)) :
    m.g1 ≠ [] ∧ ∀ c ∈ m.g1, isQuoteC c = false := by
  match cs with
  | [] => simp [p1At] at h
  | c1 :: r1 =>
    unfold p1At at h
    by_cases hq : isQuoteC c1 = true
    · simp only [hq, if_true] at h
      by_cases he : (r1.takeWhile (fun c => !isQuoteC c)).isEmpty = true
      · simp [he] at h
      · simp only [he, Bool.false_eq_true, if_false] at h
        repeat' split at h
        all_goals try exact Option.noConfusion h
        simp only [Option.some.injEq, Prod.mk.injEq] at h
        obtain ⟨rfl, -⟩ := h
        refine ⟨by simpa using he, ?_⟩
        intro c hc
        have hc2 := List.mem_takeWhile_imp hc
        simpa using hc2
    · simp [hq] at h

lemma p2Try_g1 {cs w : List Char} {m : RxMatch} {rest : List Char} :
    ∀ k, p2Try cs w k = some (m, rest) → ∃ j, 1 ≤ j ∧ m.g1 = w.take j := by
  intro k
  induction k with
  | zero => intro h; exact Option.noConfusion h
  | succ n ih =>
    intro h
    simp only [p2Try] at h
    repeat' split at h
    all_goals try exact ih h
    simp only [Option.some.injEq, Prod.mk.injEq] at h
    obtain ⟨rfl, -⟩ := h
    exact ⟨n + 1, by omega, rfl⟩

lemma p2At_g1 {cs : List Char} {m : RxMatch} {rest : List Char}
    (h : p2At cs = some (m, rest)) :
    m.g1 ≠ [] ∧ ∀ c ∈ m.g1, isQuoteC c = false := by
  unfold p2At at h
  by_cases hw : (cs.takeWhile isWordChar).isEmpty = true
  · simp [hw] at h
  · simp only [hw, Bool.false_eq_true, if_false] at h
    obtain ⟨j, hj1, hj2⟩ := p2Try_g1 _ h
    constructor
    · rw [hj2]
      rw [Ne, List.take_eq_nil_iff]
      push_neg
      exact ⟨by omega, by simpa using hw⟩
    · intro c hc
      rw [hj2] at hc
      have hcw : c ∈ cs.takeWhile isWordChar := List.take_subset _ _ hc
      exact word_not_quote (List.mem_takeWhile_imp hcw)

lemma scanRx_prop {tryAt : List Char → Option (RxMatch × List Char)} {Q : RxMatch → Prop}
    (hT : ∀ cs m rest, tryAt cs = some (m, rest) → Q m) :
    ∀ (fuel : Nat) (cs : List Char), ∀ m ∈ scanRx tryAt fuel cs, Q m := by
  intro fuel
  induction fuel with
  | zero => intro cs m hm; exact absurd hm (by simp [scanRx])
  | succ n ih =>
    intro cs m hm
    match cs with
    | [] => exact absurd hm (by simp [scanRx])
    | c :: tl =>
      rw [scanRx] at hm
      cases ht : tryAt (c :: tl) with
      | some pr =>
        rw [ht] at hm
        rcases List.mem_cons.mp hm with rfl | hm2
        · exact hT _ _ _ ht
        · exact ih pr.2 m hm2
      | none =>
        rw [ht] at hm
        exact ih tl m hm

/-- Whenever the textual fallback terminates, it returns no records. -/
lemma strategy4_some_nil {content : String} {l : List Dep}
    (h : strategy4 content = some l) : l = [] := by
  simp only [strategy4] at h
  split at h
  · exact Option.noConfusion h
  · simp only [Option.some.injEq] at h
    subst h
    rw [List.append_eq_nil]
    constructor
    · rw [List.flatMap_eq_nil_iff]
      intro m hm
      obtain ⟨hne, hqf⟩ := scanRx_prop (fun _ _ _ hh => p1At_g1 hh) _ _ m hm
      rw [depContent, if_neg (by simpa using hne)]
      exact innerRecords_nil hqf
    · rw [List.flatMap_eq_nil_iff]
      intro m hm
      obtain ⟨hne, hqf⟩ := scanRx_prop (fun _ _ _ hh => p2At_g1 hh) _ _ m hm
      rw [depContent, if_neg (by simpa using hne)]
      exact innerRecords_nil hqf

/-! ### Containment lemmas for the scanner's content check -/

lemma litPrefixOf_refl (w : List Char) : litPrefixOf w w = true := by
  induction w with
  | nil => rfl
  | cons c cs ih => simp [litPrefixOf, ih]

lemma containsSub_self (w : List Char) : containsSub w w = true := by
  cases w with
  | nil => rfl
  | cons c cs => simp [containsSub, litPrefixOf_refl]

lemma containsSub_append_self (l1 w : List Char) : containsSub (l1 ++ w) w = true := by
  induction l1 with
  | nil => simpa using containsSub_self w
  | cons c cs ih => simp [containsSub, ih]

lemma containsSub_replicate_false {c w0 : Char} {ws : List Char} (h : w0 ≠ c) :
    ∀ n, containsSub (List.replicate n c) (w0 :: ws) = false := by
  intro n
  induction n with
  | zero => rfl
  | succ k ih =>
    rw [List.replicate_succ]
    simp [containsSub, litPrefixOf, Ne.symm h, ih]

lemma containsSub_replicate_headne {c : Char} {w : List Char} (hne : w.isEmpty = false)
    (hc : w.head? ≠ some c) : ∀ n, containsSub (List.replicate n c) w = false := by
  match w with
  | [] => simp at hne
  | w0 :: ws =>
    have h : w0 ≠ c := by simpa using hc
    exact containsSub_replicate_false h

lemma take_replicate_append {n : Nat} {c : Char} {l2 : List Char} :
    ((List.replicate n c ++ l2).take n) = List.replicate n c := by
  rw [List.take_append_of_le_length (by simp)]
  rw [List.take_of_length_le (by simp)]

/-! ### The fetch loop characterisation -/

/-- Characterisation of `tryLoop`: the loop succeeds exactly when some
candidate succeeds, and it attempts exactly the failing forerunners
followed by the first success. -/
lemma tryLoop_spec (urls : List String) (t : String → Bool) :
    tryLoop urls t =
      (urls.any t,
       urls.takeWhile (fun u => !t u) ++ (urls.dropWhile (fun u => !t u)).take 1) := by
  induction urls with
  | nil => rfl
  | cons u rest ih =>
    by_cases ht : t u
    · simp [tryLoop, ht, List.takeWhile_cons, List.dropWhile_cons]
    · simp [tryLoop, ht, ih, List.takeWhile_cons, List.dropWhile_cons]

/-! ### The claims -/

/-- C1, counterexample.  The claim says a strategy that throws or yields
zero records is treated as unsuccessful and the next strategy in the
order is tried, parse returning the first strategy's non-empty result.
On `contentC1` the structured-json strategy succeeds structurally but
yields zero records; the code returns there (trace
`[embedded, structJson]`, value `some []`), never attempting the yaml or
regex strategies — while the claim's own pipeline `specParse` moves past
the zero-record strategies, reaches the textual-regex stage, and on this
content never returns at all (`none`), because pattern 4 matches and its
non-global `exec` loop diverges.  The two sides disagree, refuting the
claim. -/
theorem c1_counterexample :
    extractDependenciesT contentC1 vmNone yamlC1 =
      (some [], [Strat.embedded, Strat.structJson]) ∧
    specParse contentC1 vmNone yamlC1 = none := by
  constructor
  · rfl
  · rfl

/-- C1, amended: parse tries the strategies in the fixed order
embedded-eval, structured-json, structured-yaml, textual-regex, but
returns as soon as a strategy succeeds structurally, even with zero
records.  In particular, when the vm scripts produce no bender object and
`JSON.parse` succeeds with a non-throwing `dependencies` access, parse
returns exactly the structured-json records (possibly none) and never
attempts the yaml or regex strategies. -/
theorem c1_amended (c : String) (vm : String → Option Bender)
    (yl : String → Option JVal) (v d : JVal)
    (h1 : vm c = none) (h2 : jsonParse c = some v)
    (h3 : jsField v "dependencies" = .ok d) :
    extractDependenciesT c vm yl =
      (some (if truthy d then depRecordsFrom d "package.json" else []),
       [Strat.embedded, Strat.structJson]) := by
  have hs2 : strategy2 c = some (if truthy d then depRecordsFrom d "package.json" else []) := by
    simp only [strategy2, h2, h3]
  unfold extractDependenciesT
  rw [h1, hs2]

/-- Witness for `c1_amended` at `contentC1`. -/
theorem c1_amended_witness :
    extractDependenciesT contentC1 vmNone yamlC1 =
      (some [], [Strat.embedded, Strat.structJson]) :=
  c1_amended contentC1 vmNone yamlC1
    (.jobj [("x", .jstr "dependencies = \x7bv: 1\x7d")]) .jundefined rfl rfl rfl

/-- C2, counterexample.  The claim says the candidate sequence of a
bender record with both `baseUrl` and `pathPrefix` present begins with
the vendor URL and continues with the generic and public-CDN URLs, the
fetcher trying them in order until the first validated success.  For
`depC2` the first generic candidate validates, yet the fetcher attempts
only the vendor URL and stops with a falsy result: nothing after the
vendor URL is ever tried. -/
theorem c2_counterexample :
    downloadDependencyT depC2 tryC2 = (Except.ok false, ["https://h/p/bundles/a.js"]) ∧
    tryC2 "https://h/a@1/dist/a.js" = true ∧
    (allUrls depC2).head? = some "https://h/a@1/dist/a.js" := by
  refine ⟨rfl, by decide, by rfl⟩

/-- C2, amended: for a bender record with truthy `baseUrl` and
`pathPrefix` the vendor-pattern URL is the only candidate attempted and
its outcome is returned directly; every other record tries the three
generic-pattern URLs followed by the twelve public-CDN URLs in order,
stopping at the first validated success and throwing
"No valid download URL found" on exhaustion. -/
theorem c2_amended (d : Dep) (t : String → Bool) :
    (∀ b p, d.source = "bender" → d.baseUrl = some b → d.pathPref = some p →
      b ≠ "" → p ≠ "" →
      downloadDependencyT d t = (Except.ok (t (vendorUrl d b p)), [vendorUrl d b p])) ∧
    (¬ (d.source = "bender" ∧ truthyS d.baseUrl = true ∧ truthyS d.pathPref = true) →
      downloadDependencyT d t =
        ((if (allUrls d).any t then Except.ok true
          else Except.error "No valid download URL found"),
         (allUrls d).takeWhile (fun u => !t u) ++
           ((allUrls d).dropWhile (fun u => !t u)).take 1)) := by
  constructor
  · intro b p hsrc hb hp hbne hpne
    have hcond : d.source = "bender" ∧ truthyS d.baseUrl = true ∧ truthyS d.pathPref = true := by
      refine ⟨hsrc, ?_, ?_⟩ <;> simp [truthyS, hb, hp, hbne, hpne]
    unfold downloadDependencyT
    rw [if_pos hcond, hb, hp]
    rfl
  · intro hn
    unfold downloadDependencyT
    rw [if_neg hn, tryLoop_spec]
    by_cases ha : (allUrls d).any t <;> simp [ha]

/-- Witness for `c2_amended`: the bender case at `depC2` (only the vendor
URL is attempted, and its failure is returned), and the loop case at
`depC2n` (the first six candidates are attempted in order and the sixth
succeeds). -/
theorem c2_amended_witness :
    downloadDependencyT depC2 tryC2 = (Except.ok false, ["https://h/p/bundles/a.js"]) ∧
    downloadDependencyT depC2n tryC2n =
      (Except.ok true,
       ["https://cdn.example.com/a@1/dist/a.js", "https://cdn.example.com/a@1/a.js",
        "https://cdn.example.com/a/a.js", "https://unpkg.com/a@1/dist/a.min.js",
        "https://cdn.jsdelivr.net/npm/a@1/dist/a.min.js",
        "https://bundle.run/a@1/dist/a.min.js"]) := by
  constructor
  · have h := (c2_amended depC2 tryC2).1 "https://h" "/p" rfl rfl rfl
      (by decide) (by decide)
    exact h
  · have h := (c2_amended depC2n tryC2n).2 (by decide)
    rw [h]
    rfl

/-- C3: redirect following is not bounded.  For every chain length `n`,
`tryDownload` follows all `n` redirects and still accepts the final 200,
so no finite redirect budget exists after which an attempt fails: against
the claim (and the spec's requirement), a redirect loop is followed
without bound — on a server that always redirects, the recursion never
terminates. -/
theorem c3_redirects_unbounded (n : Nat) :
    tryDownload
      (List.replicate n (Resp.redirect 301 "https://loop.example/x") ++ [Resp.body "var x = 1"])
      none =
    some (true, some "var x = 1") := by
  induction n with
  | zero => rfl
  | succ k ih =>
    rw [List.replicate_succ, List.cons_append]
    simpa [tryDownload] using ih

/-- C5, counterexample.  The claim says every record produced by parse has
a non-empty name and version.  On `contentC5` the structured-json
strategy copies the manifest's empty key and empty value verbatim,
producing a record whose name and version are both empty. -/
theorem c5_counterexample :
    extractDependencies contentC5 vmNone yamlNone = some [emptyRec] ∧
    emptyRec.name = "" ∧ emptyRec.version = .jstr "" := by
  refine ⟨rfl, rfl, rfl⟩

/-- C5, amended: the structured strategies copy names and versions
verbatim from the manifest's map and can produce empty ones; the
textual-regex strategy, whenever it terminates, returns no records at
all, so every record it returns trivially has non-empty name and
version. -/
theorem c5_amended (c : String) (l : List Dep) (h : strategy4 c = some l) : l = [] :=
  strategy4_some_nil h

/-- Witness for `c5_amended` at `contentC5`. -/
theorem c5_amended_witness :
    strategy4 contentC5 = some [] ∧ ([] : List Dep) = [] :=
  ⟨rfl, c5_amended contentC5 [] rfl⟩

/-- C6: the content check does not restrict itself to the first kilobyte.
`readFileSync(path, "utf8", 0, 1024)` ignores the extra arguments and
reads the whole file, so a file whose first 1024 characters are neutral
but whose 1025th byte onward spells `require` is classified a candidate,
while the same check over only the first kilobyte rejects it: bytes
beyond the bounded prefix do influence candidacy, against the claim. -/
theorem c6_content_beyond_1k :
    contentMatches (String.mk (List.replicate 1024 'x' ++ "require".data)) = true ∧
    contentMatches (String.mk ((List.replicate 1024 'x' ++ "require".data).take 1024)) = false ∧
    classify "zzz.txt" (String.mk (List.replicate 1024 'x' ++ "require".data)) = some "content" := by
  have hdata : ∀ l : List Char, (String.mk l).data = l := fun _ => rfl
  have hpos : contentMatches (String.mk (List.replicate 1024 'x' ++ "require".data)) = true := by
    rw [contentMatches]
    apply Bool.or_eq_true_iff.mpr
    left
    rw [List.any_eq_true]
    refine ⟨"require", by simp [wordPats], ?_⟩
    rw [containsCI, hdata, List.map_append]
    exact containsSub_append_self _ _
  have hneg :
      contentMatches (String.mk ((List.replicate 1024 'x' ++ "require".data).take 1024)) = false := by
    rw [take_replicate_append, contentMatches]
    apply Bool.or_eq_false_iff.mpr
    constructor
    · rw [List.any_eq_false]
      intro w hw
      rw [containsCI, hdata, List.map_replicate]
      fin_cases hw <;>
        (simp only [Bool.not_eq_true]; apply containsSub_replicate_headne <;> decide)
    · rw [List.any_eq_false]
      intro w hw
      rw [containsCI, hdata, List.map_replicate]
      fin_cases hw <;>
        (simp only [Bool.not_eq_true]; apply containsSub_replicate_headne <;> decide)
  refine ⟨hpos, hneg, ?_⟩
  rw [classify]
  have hfn : filenameMatches "zzz.txt" = false := by decide
  simp only [hfn, hpos, Bool.false_or, if_true, Bool.false_eq_true, if_false]

/-- C7: whenever the textual-regex fallback returns a record list, no two
of its records share a name.  This holds vacuously: the strategy only
ever returns the empty list (its inner pair regex needs a quote character
that the captured group can never contain), and it diverges instead of
returning whenever its block patterns match. -/
theorem c7_dedup (c : String) (l : List Dep) (h : strategy4 c = some l) :
    l.Pairwise (fun a b => a.name ≠ b.name) := by
  rw [strategy4_some_nil h]
  exact List.Pairwise.nil

/-- Witness for `c7_dedup` at a terminating input. -/
theorem c7_dedup_witness :
    strategy4 "zz" = some [] ∧
    List.Pairwise (fun a b : Dep => a.name ≠ b.name) [] :=
  ⟨rfl, c7_dedup "zz" [] rfl⟩

/-- C8, counterexample.  The claim says no partial output file remains on
disk after any failed attempt.  When the 5-second inactivity timeout
fires after part of a 200 body has already been streamed to the file, the
source destroys the request and resolves `false` without unlinking: the
partially-written file remains as the fetcher advances. -/
theorem c8_counterexample :
    tryDownload [Resp.timeoutMid "xy"] none = some (false, some "xy") := rfl

/-- C8, amended: for an attempt whose responses never interrupt a
streaming body, a failed attempt leaves no file behind (non-200 statuses
and pre-response errors write nothing; a content-validation failure
deletes the file it wrote before resolving), and a successful attempt
leaves exactly the validated body. -/
theorem c8_amended (rs : List Resp) (h : ∀ r ∈ rs, noMidBody r = true) :
    ∀ res st, tryDownload rs none = some (res, st) →
      (res = false → st = none) ∧ (res = true → ∃ b, st = some b ∧ jsHeuristic b = true) := by
  induction rs with
  | nil => intro res st hr; exact Option.noConfusion hr
  | cons r tl ih =>
    intro res st hr
    cases r with
    | redirect code loc =>
      rw [tryDownload] at hr
      split at hr
      · exact ih (fun x hx => h x (List.mem_cons_of_mem _ hx)) res st hr
      · obtain ⟨rfl, rfl⟩ : false = res ∧ (none : Option String) = st := by
          simpa using hr
        exact ⟨fun _ => rfl, fun hcon => Bool.noConfusion hcon⟩
    | status code =>
      obtain ⟨rfl, rfl⟩ : false = res ∧ (none : Option String) = st := by
        simpa [tryDownload] using hr
      exact ⟨fun _ => rfl, fun hcon => Bool.noConfusion hcon⟩
    | body b =>
      rw [tryDownload] at hr
      by_cases hb : jsHeuristic b = true
      · rw [if_pos hb] at hr
        obtain ⟨rfl, rfl⟩ : true = res ∧ some b = st := by simpa using hr
        exact ⟨fun hcon => Bool.noConfusion hcon, fun _ => ⟨b, rfl, hb⟩⟩
      · rw [if_neg hb] at hr
        obtain ⟨rfl, rfl⟩ : false = res ∧ (none : Option String) = st := by simpa using hr
        exact ⟨fun _ => rfl, fun hcon => Bool.noConfusion hcon⟩
    | timeoutMid w =>
      exact absurd (h _ (List.mem_cons_self _ _)) (by simp [noMidBody])
    | netErr =>
      obtain ⟨rfl, rfl⟩ : false = res ∧ (none : Option String) = st := by
        simpa [tryDownload] using hr
      exact ⟨fun _ => rfl, fun hcon => Bool.noConfusion hcon⟩

/-- Witness for `c8_amended`: a redirect followed by a 404 fails and
leaves no file. -/
theorem c8_amended_witness :
    (false = false → (none : Option String) = none) ∧
    (false = true → ∃ b, (none : Option String) = some b ∧ jsHeuristic b = true) :=
  c8_amended [Resp.redirect 301 "u", Resp.status 404] (by decide) false none rfl

/-- C9, counterexample.  The claim says distinct dependency records get
distinct output paths.  Replacing `/` with `_` in the name identifies the
distinct records `a/b@1` and `a_b@1`, which write to the same file. -/
theorem c9_counterexample :
    depFilename depC9a = depFilename depC9b ∧
    depC9a ≠ depC9b ∧
    outputPath "root" depC9a = outputPath "root" depC9b := by
  refine ⟨rfl, ?_, rfl⟩
  intro h
  exact absurd (congrArg Dep.name h) (by decide)

/-- C9, amended: each record writes to
`<name with / replaced by _>@<version>.js` under the shared output
directory, and for records with equal version strings the output files
coincide exactly when the sanitized names coincide — so records that
differ only between `/` and `_` in their names overwrite each other. -/
theorem c9_amended (d1 d2 : Dep)
    (h : jvalToString d1.version = jvalToString d2.version) :
    depFilename d1 = depFilename d2 ↔ sanitize d1.name = sanitize d2.name := by
  unfold depFilename
  rw [h]
  constructor
  · intro he
    have hd := congrArg String.data he
    simp only [String.data_append] at hd
    have h1 := List.append_cancel_right hd
    have h2 := List.append_cancel_right h1
    have h3 := List.append_cancel_right h2
    exact String.ext h3
  · intro hs
    rw [hs]

/-- Witness for `c9_amended`: equal versions, distinct sanitized names,
hence distinct output files. -/
theorem c9_amended_witness :
    (depFilename depC9c = depFilename depC9d ↔ sanitize depC9c.name = sanitize depC9d.name) ∧
    depFilename depC9c ≠ depFilename depC9d :=
  have h := c9_amended depC9c depC9d rfl
  ⟨h, fun he => absurd (h.mp he) (by decide)⟩

/-- C10: when both the filename check and the content check match, the
candidate's recorded detection reason is the filename match. -/
theorem c10_filename_precedence (name content : String)
    (h1 : filenameMatches name = true) (h2 : contentMatches content = true) :
    classify name content = some "filename" := by
  rw [classify]
  simp only [h1, h2, Bool.or_self, if_true]

/-- Witness for `c10_filename_precedence` at a file matching both
checks. -/
theorem c10_witness :
    filenameMatches "manifest.txt" = true ∧
    contentMatches "var require x" = true ∧
    classify "manifest.txt" "var require x" = some "filename" :=
  ⟨by decide, by decide,
   c10_filename_precedence "manifest.txt" "var require x" (by decide) (by decide)⟩

end DepFetch
